import Mathlib

/-!
Shallow embedding of `zeekpkg/package.py` (metadata and version-compatibility
layer of a package manager), together with theorems about the embedded
operations.

Python strings are modelled as Lean `String`; `str | None` values as
`Option String`; Python `dict[str, str]` as association lists with unique
keys; exceptions as an explicit `Except PyExc` result.  Filesystem queries
(`os.path.exists`, `os.path.realpath`) are modelled as an explicit
environment parameter `FS`, since the source consults the host filesystem
only through those two functions.
-/

/-- The Python exceptions that the embedded code can raise. -/
inductive PyExc where
  | assertionError
  | valueError
  | indexError
deriving DecidableEq, Repr

/-- Python `str(x)` for `x : str | None` (f-string interpolation renders
`None` as the text "None"). -/
def optStr : Option String → String
  | none => "None"
  | some s => s

/-- Split a character list at every occurrence of `sep`, keeping empty
pieces; models Python `s.split("/")`-style single-character splitting.
Always returns a non-empty list. -/
def splitCharL (sep : Char) : List Char → List (List Char)
  | [] => [[]]
  | c :: cs =>
    let r := splitCharL sep cs
    if c = sep then [] :: r
    else
      match r with
      | [] => [[c]]
      | h :: t => (c :: h) :: t

/-- Python `s.split(sep)` for a single-character separator. -/
def pySplitChar (sep : Char) (s : String) : List String :=
  (splitCharL sep s.toList).map String.mk

/-- Python whitespace characters recognized by `str.split()`. -/
def isPySpace (c : Char) : Bool :=
  c == ' ' || c == '\t' || c == '\n' || c == '\r' || c == '\x0b' || c == '\x0c'

/-- Helper for `pySplit`: accumulates the current word (reversed). -/
def pySplitAux : List Char → List Char → List String
  | [], acc => if acc = [] then [] else [String.mk acc.reverse]
  | c :: cs, acc =>
    if isPySpace c then
      if acc = [] then pySplitAux cs []
      else String.mk acc.reverse :: pySplitAux cs []
    else pySplitAux cs (c :: acc)

/-- Python `s.split()` with no argument: split on runs of whitespace and
drop empty pieces. -/
def pySplit (s : String) : List String :=
  pySplitAux s.toList []

/-- Remove the maximal run of trailing `'/'` characters; models Python
`s.rstrip("/")` at the character-list level. -/
def rstripList : List Char → List Char
  | [] => []
  | c :: cs =>
    match rstripList cs with
    | [] => if c = '/' then [] else [c]
    | h :: t => c :: h :: t

/-- Python `s.rstrip("/")`. -/
def rstripSlash (s : String) : String :=
  String.mk (rstripList s.toList)

/-- Python `pre in`-style prefix test `s.startswith(pre)`. -/
def pyStartswith (s pre : String) : Bool :=
  pre.toList.isPrefixOf s.toList

/-- The filesystem environment consulted by the source through
`os.path.exists` and `os.path.realpath`. -/
structure FS where
  pathExists : String → Bool
  realpath : String → String

/-- A concrete filesystem on which no path exists (used to instantiate
theorems at concrete inputs; on it `realpath` is the identity). -/
def fsEmpty : FS := ⟨fun _ => false, fun s => s⟩

def TRACKING_METHOD_VERSION : String := "version"
def TRACKING_METHOD_BRANCH : String := "branch"
def TRACKING_METHOD_COMMIT : String := "commit"
def TRACKING_METHOD_BUILTIN : String := "builtin"

/-- `canonical_url(path)` from the source: strip trailing slashes with
`rstrip("/")`; if the result starts with "." or "/" (a one-character
`startswith` test, i.e. a first-character test), resolve it through the
filesystem's `realpath`. -/
def canonical_url (fs : FS) (path : String) : String :=
  let url := rstripSlash path
  if url.toList.head? = some '.' ∨ url.toList.head? = some '/' then fs.realpath url
  else url

/-- `name_from_path(path)` from the source: the last "/"-separated
component of `canonical_url(path)` (Python `[-1]` on the never-empty
result of `split`). -/
def name_from_path (fs : FS) (path : String) : String :=
  (pySplitChar '/' (canonical_url fs path)).getLastD ""

/-- Association-list lookup modelling Python `d[k]` / `k in d` on a
string-keyed dict (keys are unique, so first match is the binding). -/
def lookupMeta (md : List (String × String)) (k : String) : Option String :=
  (md.find? (fun p => p.1 == k)).map (fun p => p.2)

/-- Every other element of a list starting with the first; models the
Python slice `l[::2]`.  `l[1::2]` is `everyOther l.tail`. -/
def everyOther : List α → List α
  | [] => []
  | [a] => [a]
  | a :: _ :: rest => a :: everyOther rest

/-- `dependencies(metadata_dict, field)` from the source: absent field
gives an empty dict; the field's value is whitespace-tokenized, keys are
the even-indexed tokens, values the odd-indexed ones; unequal counts give
`None`, else the dict pairing them (represented as the in-order list of
pairs). -/
def dependencies (md : List (String × String)) (field : String) :
    Option (List (String × String)) :=
  match lookupMeta md field with
  | none => some []
  | some depends =>
    let parts := pySplit depends
    let keys := everyOther parts
    let values := everyOther parts.tail
    if keys.length ≠ values.length then none
    else some (keys.zip values)

/-- A semantic version as used by the external comparator, reduced to its
numeric `major.minor.patch` components. -/
structure SemVer where
  major : Nat
  minor : Nat
  patch : Nat
deriving DecidableEq, Repr

/-- Numeric value of a list of decimal digits. -/
def digitsVal (l : List Char) : Nat :=
  l.foldl (fun acc c => acc * 10 + (c.toNat - 48)) 0

/-- Modelled from the spec: `_util.normalize_version_tag` is not under
`src/`; the spec says version tags are normalized by a lenient helper so
that a tag like "v1.2.3" compares as the version 1.2.3.  Modelled as
stripping one leading "v". -/
def normalize_version_tag (tag : String) : String :=
  if pyStartswith tag "v" then String.mk (tag.toList.drop 1) else tag

/-- Modelled from the spec: the external semantic-version library's
lenient `Version.coerce` — "numeric-component coercion: pad/truncate to
major.minor.patch, drop non-numeric pre-release/build suffixes".  Requires
a leading numeric component; missing components are padded with 0 and any
trailing non-numeric suffix is dropped. -/
def coerce (s : String) : Option SemVer :=
  let cs := s.toList
  let d1 := cs.takeWhile (fun c => c.isDigit)
  let r1 := cs.dropWhile (fun c => c.isDigit)
  if d1 = [] then none
  else
    let a := digitsVal d1
    match r1 with
    | '.' :: r2 =>
      let d2 := r2.takeWhile (fun c => c.isDigit)
      let r3 := r2.dropWhile (fun c => c.isDigit)
      if d2 = [] then some ⟨a, 0, 0⟩
      else
        let b := digitsVal d2
        match r3 with
        | '.' :: r4 =>
          let d3 := r4.takeWhile (fun c => c.isDigit)
          if d3 = [] then some ⟨a, b, 0⟩ else some ⟨a, b, digitsVal d3⟩
        | _ => some ⟨a, b, 0⟩
    | _ => some ⟨a, 0, 0⟩

/-- Comparison operators of the spec grammar's comparator clauses. -/
inductive CompOp where
  | ge
  | le
  | gt
  | lt
  | eq
  | ne
deriving DecidableEq, Repr

/-- Strict lexicographic order on `(major, minor, patch)`. -/
def svLtB (x y : SemVer) : Bool :=
  decide (x.major < y.major) ||
    (x.major == y.major &&
      (decide (x.minor < y.minor) ||
        (x.minor == y.minor && decide (x.patch < y.patch))))

/-- Parse the version part of a comparator clause: one to three
dot-separated all-digit components, padded with zeros. -/
def parseVersionChars (cs : List Char) : Option SemVer :=
  let comp := fun (l : List Char) =>
    if !l.isEmpty && l.all (fun c => c.isDigit) then some (digitsVal l) else none
  match splitCharL '.' cs with
  | [x] => (comp x).map (fun a => ⟨a, 0, 0⟩)
  | [x, y] =>
    match comp x, comp y with
    | some a, some b => some ⟨a, b, 0⟩
    | _, _ => none
  | [x, y, z] =>
    match comp x, comp y, comp z with
    | some a, some b, some c => some ⟨a, b, c⟩
    | _, _, _ => none
  | _ => none

/-- Modelled from the spec: one clause of the external library's range
grammar — an optional comparator prefix followed by a version; a bare
version means equality. -/
def parseClauseL (cs : List Char) : Option (CompOp × SemVer) :=
  let (op, rest) :=
    if ['>', '='].isPrefixOf cs then (CompOp.ge, cs.drop 2)
    else if ['<', '='].isPrefixOf cs then (CompOp.le, cs.drop 2)
    else if ['=', '='].isPrefixOf cs then (CompOp.eq, cs.drop 2)
    else if ['!', '='].isPrefixOf cs then (CompOp.ne, cs.drop 2)
    else if ['>'].isPrefixOf cs then (CompOp.gt, cs.drop 1)
    else if ['<'].isPrefixOf cs then (CompOp.lt, cs.drop 1)
    else if ['='].isPrefixOf cs then (CompOp.eq, cs.drop 1)
    else (CompOp.eq, cs)
  (parseVersionChars rest).map (fun v => (op, v))

/-- Modelled from the spec: `semver.Spec(spec)` — "a semantic-version
range expression (comma-separated set of comparator+version clauses,
ANDed together)"; `none` models the `ValueError` on a malformed
expression. -/
def parseSpec (s : String) : Option (List (CompOp × SemVer)) :=
  (splitCharL ',' s.toList).mapM parseClauseL

/-- Whether a version satisfies a single comparator clause. -/
def matchesClause (v : SemVer) (c : CompOp × SemVer) : Bool :=
  match c.1 with
  | CompOp.ge => !svLtB v c.2
  | CompOp.le => !svLtB c.2 v
  | CompOp.gt => svLtB c.2 v
  | CompOp.lt => svLtB v c.2
  | CompOp.eq => v == c.2
  | CompOp.ne => !(v == c.2)

/-- Membership of a version in a parsed range: all clauses hold. -/
def inSpec (v : SemVer) (cl : List (CompOp × SemVer)) : Bool :=
  cl.all (matchesClause v)

/-- `PackageVersion` from the source: a tracking method, a raw version
string (both possibly `None`), and the lazily memoized coerced semantic
version (`req_semver`, `None` until first use). -/
structure PackageVersion where
  method : Option String
  version : Option String
  req_semver : Option SemVer
deriving DecidableEq, Repr

/-- `PackageVersion.__init__`: `req_semver` starts out as `None`. -/
def PackageVersion.make (method version : Option String) : PackageVersion :=
  ⟨method, version, none⟩

/-- The semantic version used on the semver path of `fullfills`: the
memoized `req_semver` if set; otherwise `assert self.version` (raising
`AssertionError` when the version is `None` or empty, both falsy), then
`semver.Version.coerce(normalize_version_tag(version))`, whose
`ValueError` on an uncoercible tag is not caught by the source. -/
def resolveSemver (pv : PackageVersion) : Except PyExc SemVer :=
  match pv.req_semver with
  | some sv => Except.ok sv
  | none =>
    match pv.version with
    | none => Except.error PyExc.assertionError
    | some v =>
      if v = "" then Except.error PyExc.assertionError
      else
        match coerce (normalize_version_tag v) with
        | none => Except.error PyExc.valueError
        | some sv => Except.ok sv

/-- `PackageVersion.fullfills(version_spec)` from the source (the source
spells the method name with the doubled "l").  Returns the
`(message, ok)` pair, or the exception the Python code would raise. -/
def PackageVersion.fullfills (pv : PackageVersion) (version_spec : String) :
    Except PyExc (String × Bool) :=
  if version_spec = "*" then Except.ok ("", true)
  else if pv.method = some TRACKING_METHOD_COMMIT then
    Except.ok ("tracking method commit not compatible with \"" ++ version_spec ++ "\"", false)
  else if pv.method = some TRACKING_METHOD_BRANCH then
    Except.ok ("tracking method branch and commit", false)
  else if pyStartswith version_spec "branch=" then
    Except.ok
      ("branch " ++ String.mk (version_spec.toList.drop 7) ++
        " requested, but using method " ++ optStr pv.method, false)
  else
    match resolveSemver pv with
    | Except.error e => Except.error e
    | Except.ok sv =>
      match parseSpec version_spec with
      | none => Except.ok ("invalid semver spec: \"" ++ version_spec ++ "\"", false)
      | some clauses =>
        if inSpec sv clauses then Except.ok ("", true)
        else Except.ok (optStr pv.version ++ " not in " ++ version_spec, false)

/-- `Package` from the source: identity record.  The `metadata` dict is
carried but takes no part in identity. -/
structure Package where
  git_url : String
  source : String
  directory : String
  metadata : List (String × String)
  name : String
deriving DecidableEq, Repr

/-- `Package.__init__(git_url, source, directory, metadata, name,
canonical)`.  Mirrors the source's statement order: `self.name = name`
when `name` is truthy; then, when `canonical` is false, `self.git_url =
canonical_url(git_url)`, further resolved through `realpath` when the
package has no source and the original `git_url` exists on the
filesystem, and `self.name = name_from_path(git_url)` (unconditionally,
overwriting any supplied name).  With `canonical` true and a falsy
`name`, `self.name` is never assigned, modelled as `none`. -/
def Package.make (fs : FS) (git_url : String) (source : String)
    (directory : String) (metadata : List (String × String))
    (name : Option String) (canonical : Bool) : Option Package :=
  let name0 : Option String :=
    match name with
    | some n => if n = "" then none else some n
    | none => none
  if canonical then
    match name0 with
    | some n => some ⟨git_url, source, directory, metadata, n⟩
    | none => none
  else
    let url1 := canonical_url fs git_url
    let url2 := if source = "" ∧ fs.pathExists git_url then fs.realpath url1 else url1
    some ⟨url2, source, directory, metadata, name_from_path fs git_url⟩

/-- `Package.name_with_source_directory()`. -/
def Package.name_with_source_directory (p : Package) : String :=
  if p.directory ≠ "" then p.directory ++ "/" ++ p.name else p.name

/-- `Package.qualified_name()`. -/
def Package.qualified_name (p : Package) : String :=
  if p.source ≠ "" then p.source ++ "/" ++ p.name_with_source_directory
  else p.git_url

/-- `Package.__str__()`: the qualified name. -/
def Package.pyStr (p : Package) : String :=
  p.qualified_name

/-- `Package.__eq__`: string equality of the `__str__` forms. -/
def Package.pyEq (p q : Package) : Bool :=
  p.pyStr == q.pyStr

/-- `Package.__lt__`: lexicographic order of the `__str__` forms. -/
def Package.pyLt (p q : Package) : Bool :=
  decide (p.pyStr < q.pyStr)

/-- `Package.__hash__`: `hash(str(self))`. -/
def Package.pyHash (p : Package) : UInt64 :=
  p.pyStr.hash

/-- Python list indexing `l[ri]` for a (possibly negative) index:
negative indices count from the end; an index out of range is an
`IndexError`, modelled as `none`. -/
def pyGetNeg (l : List String) (ri : Int) : Option String :=
  let j : Int := if ri < 0 then ri + l.length else ri
  if 0 ≤ j ∧ j < l.length then l.get? j.toNat else none

/-- The loop of `Package.matches_path` over `reversed(list(enumerate(
path_parts)))`: for each `(i, part)` compare `part` with
`pkg_path_parts[i - n]` (`n` the number of path components), returning
`False` on the first mismatch and raising `IndexError` when the negative
index falls out of range. -/
def suffixCheckAux (pkgParts : List String) (n : Nat) :
    List (Nat × String) → Except PyExc Bool
  | [] => Except.ok true
  | (i, part) :: rest =>
    match pyGetNeg pkgParts ((i : Int) - (n : Int)) with
    | none => Except.error PyExc.indexError
    | some q =>
      if part ≠ q then Except.ok false
      else suffixCheckAux pkgParts n rest

/-- `Package.matches_path(path)` from the source. -/
def Package.matches_path (p : Package) (path : String) : Except PyExc Bool :=
  let pathParts := pySplitChar '/' path
  if p.source ≠ "" then
    let pkgParts := pySplitChar '/' p.qualified_name
    suffixCheckAux pkgParts pathParts.length pathParts.enum.reverse
  else if pathParts.length = 1 ∧ pathParts.getLastD "" = p.name then Except.ok true
  else Except.ok (decide (path = p.git_url))

/-- `PackageStatus` from the source (constructor defaults omitted; all
claims quantify over explicit field values). -/
structure PackageStatus where
  is_loaded : Bool
  is_pinned : Bool
  is_outdated : Bool
  tracking_method : Option String
  current_version : Option String
  current_hash : Option String
deriving DecidableEq, Repr

/-- `InstalledPackage`: a package together with its status. -/
structure InstalledPackage where
  package : Package
  status : PackageStatus
deriving DecidableEq, Repr

/-- `InstalledPackage.__eq__`: `isinstance` check (always true between
two `InstalledPackage` values) and string equality of the packages. -/
def InstalledPackage.pyEq (a b : InstalledPackage) : Bool :=
  a.package.pyStr == b.package.pyStr

/-- `InstalledPackage.__lt__`: the source compares `self.package <
str(other.package)`; `Package.__lt__` turns both sides into strings, so
this evaluates to `str(self.package) < str(other.package)`. -/
def InstalledPackage.pyLt (a b : InstalledPackage) : Bool :=
  decide (a.package.pyStr < b.package.pyStr)

/-- `InstalledPackage.__hash__`: `hash(str(self.package))`. -/
def InstalledPackage.pyHash (a : InstalledPackage) : UInt64 :=
  a.package.pyStr.hash

/-- `PackageInfo` from the source, restricted to its stored fields. -/
structure PackageInfo where
  package : Package
  status : Option PackageStatus
  metadata : List (String × String)
  versions : List String
  metadata_version : Option String
  version_type : String
  invalid_reason : String
  metadata_file : Option String
  default_branch : Option String
deriving DecidableEq, Repr

/-- `PackageInfo.best_version()`: the last element of `versions` when
non-empty; otherwise `assert self.default_branch` (an `AssertionError`
when it is `None` or empty) and then the default branch. -/
def PackageInfo.best_version (p : PackageInfo) : Except PyExc String :=
  if p.versions ≠ [] then Except.ok (p.versions.getLastD "")
  else
    match p.default_branch with
    | none => Except.error PyExc.assertionError
    | some b =>
      if b = "" then Except.error PyExc.assertionError else Except.ok b

/-- C1: `fullfills("*")` is `("", true)` for every tracking method and
version; for any other spec, a commit-tracked `PackageVersion` answers
with its incompatibility message and `false`, and a branch-tracked one
answers `("tracking method branch and commit", false)` — for every spec,
including specs of the form "branch=<name>". -/
theorem fullfills_wildcard_commit_branch (pv : PackageVersion) (spec : String) :
    pv.fullfills "*" = Except.ok ("", true) ∧
    (spec ≠ "*" → pv.method = some TRACKING_METHOD_COMMIT →
      pv.fullfills spec =
        Except.ok ("tracking method commit not compatible with \"" ++ spec ++ "\"", false)) ∧
    (spec ≠ "*" → pv.method = some TRACKING_METHOD_BRANCH →
      pv.fullfills spec = Except.ok ("tracking method branch and commit", false)) := by
  refine ⟨rfl, ?_, ?_⟩
  · intro hs hm
    simp [PackageVersion.fullfills, hs, hm]
  · intro hs hm
    simp [PackageVersion.fullfills, hs, hm, TRACKING_METHOD_COMMIT, TRACKING_METHOD_BRANCH]

/-- Witness for C1 at concrete inputs. -/
theorem fullfills_wildcard_commit_branch_witness :
    PackageVersion.fullfills (PackageVersion.make (some "commit") none) ">=1.0.0" =
      Except.ok ("tracking method commit not compatible with \">=1.0.0\"", false) ∧
    PackageVersion.fullfills (PackageVersion.make (some "branch") (some "1.0")) "branch=main" =
      Except.ok ("tracking method branch and commit", false) :=
  ⟨(fullfills_wildcard_commit_branch (PackageVersion.make (some "commit") none)
      ">=1.0.0").2.1 (by decide) rfl,
   (fullfills_wildcard_commit_branch (PackageVersion.make (some "branch") (some "1.0"))
      "branch=main").2.2 (by decide) rfl⟩

/-- C2: on the semantic-version path (version- or builtin-tracked, spec
neither "*" nor "branch=..."), with a present and coercible version:
a spec that fails to parse yields the "invalid semver spec" message and
`false` without raising; a parsed spec yields `("", true)` on membership
and `("<version> not in <spec>", false)` otherwise. -/
theorem fullfills_semver_path (pv : PackageVersion) (spec : String)
    (hm : pv.method = some TRACKING_METHOD_VERSION ∨
      pv.method = some TRACKING_METHOD_BUILTIN)
    (hs : spec ≠ "*") (hb : pyStartswith spec "branch=" = false)
    (sv : SemVer) (hr : resolveSemver pv = Except.ok sv) :
    (parseSpec spec = none →
      pv.fullfills spec =
        Except.ok ("invalid semver spec: \"" ++ spec ++ "\"", false)) ∧
    (∀ cl, parseSpec spec = some cl →
      pv.fullfills spec =
        if inSpec sv cl then Except.ok ("", true)
        else Except.ok (optStr pv.version ++ " not in " ++ spec, false)) := by
  have hc : pv.method ≠ some TRACKING_METHOD_COMMIT := by
    rcases hm with h | h <;>
      simp [h, TRACKING_METHOD_VERSION, TRACKING_METHOD_BUILTIN, TRACKING_METHOD_COMMIT]
  have hbr : pv.method ≠ some TRACKING_METHOD_BRANCH := by
    rcases hm with h | h <;>
      simp [h, TRACKING_METHOD_VERSION, TRACKING_METHOD_BUILTIN, TRACKING_METHOD_BRANCH]
  constructor
  · intro hp
    simp [PackageVersion.fullfills, hs, hc, hbr, hb, hr, hp]
  · intro cl hp
    simp [PackageVersion.fullfills, hs, hc, hbr, hb, hr, hp]

/-- Witness for C2: coverage of the "invalid semver spec" arm and of the
membership arm at concrete inputs. -/
theorem fullfills_semver_path_witness :
    PackageVersion.fullfills (PackageVersion.make (some "version") (some "v1.2.3"))
      "not-a-spec" = Except.ok ("invalid semver spec: \"not-a-spec\"", false) ∧
    PackageVersion.fullfills (PackageVersion.make (some "version") (some "v1.2.3"))
      ">=2.0.0" = Except.ok ("v1.2.3 not in >=2.0.0", false) := by
  constructor
  · exact (fullfills_semver_path (PackageVersion.make (some "version") (some "v1.2.3"))
      "not-a-spec" (Or.inl rfl) (by decide) rfl ⟨1, 2, 3⟩ rfl).1 rfl
  · have h := (fullfills_semver_path (PackageVersion.make (some "version") (some "v1.2.3"))
      ">=2.0.0" (Or.inl rfl) (by decide) rfl ⟨1, 2, 3⟩ rfl).2
      [(CompOp.ge, ⟨2, 0, 0⟩)] rfl
    exact h.trans rfl

/-- C3 counterexample: contrary to the claim of totality, a
version-tracked `PackageVersion` with an absent version raises
`AssertionError` on the semantic-version path instead of returning a
`(message, ok)` pair. -/
theorem fullfills_not_total :
    PackageVersion.fullfills (PackageVersion.make (some TRACKING_METHOD_VERSION) none)
      ">=1.0.0" = Except.error PyExc.assertionError := rfl

/-- C3 amended: `fullfills` returns a pair (never raises) on every path
that does not reach the semantic-version coercion — wildcard spec,
commit or branch tracking, and "branch=" specs — and on the
semantic-version path whenever the version resolves (memoized, or
present, non-empty and coercible); with an absent/empty version the
`assert` raises, and with an uncoercible one the uncaught coercion
raises. -/
theorem fullfills_total_on_guarded_paths (pv : PackageVersion) (spec : String)
    (h : spec = "*" ∨ pv.method = some TRACKING_METHOD_COMMIT ∨
      pv.method = some TRACKING_METHOD_BRANCH ∨
      pyStartswith spec "branch=" = true ∨ (resolveSemver pv).isOk = true) :
    (pv.fullfills spec).isOk = true := by
  unfold PackageVersion.fullfills
  split_ifs with h1 h2 h3 h4
  · rfl
  · rfl
  · rfl
  · rfl
  · rcases h with h | h | h | h | h
    · exact absurd h h1
    · exact absurd h h2
    · exact absurd h h3
    · exact absurd h (by simpa using h4)
    · rcases hok : resolveSemver pv with e | sv
      · rw [hok] at h
        simp [Except.isOk, Except.toBool] at h
      · rcases hp : parseSpec spec with _ | cl
        · simp [hp, Except.isOk, Except.toBool]
        · by_cases hin : inSpec sv cl <;>
            simp [hp, hin, Except.isOk, Except.toBool]

/-- Witness for C3's amended theorem at a concrete input. -/
theorem fullfills_total_on_guarded_paths_witness :
    (PackageVersion.fullfills (PackageVersion.make (some "branch") (some "x"))
      ">=1.0.0").isOk = true :=
  fullfills_total_on_guarded_paths (PackageVersion.make (some "branch") (some "x"))
    ">=1.0.0" (Or.inr (Or.inr (Or.inl rfl)))

/-- C4 counterexample: constructing a `Package` with `canonical = false`
and the explicitly supplied non-empty name "bar" produces a package named
"foo" (the last component of the git URL), not "bar". -/
theorem package_make_overrides_supplied_name :
    (Package.make fsEmpty "https://example.com/org/foo" "" "" [] (some "bar")
        false).map Package.name = some "foo" ∧ ("foo" : String) ≠ "bar" :=
  ⟨rfl, by decide⟩

/-- C4 amended: with `canonical = false` the name is always derived via
`name_from_path(git_url)`, overriding any supplied name; a supplied
non-empty name is honored verbatim only when `canonical = true` (which
also leaves `git_url` untouched). -/
theorem package_make_name (fs : FS) (git_url source directory : String)
    (metadata : List (String × String)) (name : Option String) :
    (Package.make fs git_url source directory metadata name false).map
        Package.name = some (name_from_path fs git_url) ∧
    (∀ n, n ≠ "" →
      Package.make fs git_url source directory metadata (some n) true =
        some ⟨git_url, source, directory, metadata, n⟩) := by
  constructor
  · rfl
  · intro n hn
    simp [Package.make, hn]

/-- Witness for C4's amended theorem at concrete inputs. -/
theorem package_make_name_witness :
    Package.make fsEmpty "zeek-builtin://foo" "zeek-builtin" "" [] (some "foo")
        true = some ⟨"zeek-builtin://foo", "zeek-builtin", "", [], "foo"⟩ :=
  (package_make_name fsEmpty "zeek-builtin://foo" "zeek-builtin" "" []
    (some "foo")).2 "foo" (by decide)

/-- C6 counterexample: `canonical_url` strips the whole trailing run of
slashes, not a single one: on "foo//" (which begins with neither "." nor
"/") it yields "foo", whereas removing exactly one trailing slash would
yield "foo/". -/
theorem canonical_url_strips_all_trailing_slashes :
    canonical_url fsEmpty "foo//" = "foo" ∧
    pyStartswith "foo//" "." = false ∧ pyStartswith "foo//" "/" = false ∧
    ("foo" : String) ≠ "foo/" :=
  ⟨rfl, rfl, rfl, by decide⟩

/-- The head of `rstripList l` is either gone or the head of `l`. -/
theorem rstripList_head (l : List Char) :
    (rstripList l).head? = none ∨ (rstripList l).head? = l.head? := by
  cases l with
  | nil => exact Or.inl rfl
  | cons c cs =>
    simp only [rstripList]
    cases h : rstripList cs with
    | nil =>
      by_cases hc : c = '/' <;> simp [hc]
    | cons x xs => simp

/-- `rstripList` leaves no trailing slash. -/
theorem rstripList_getLast (l : List Char) :
    (rstripList l).getLast? ≠ some '/' := by
  induction l with
  | nil => simp [rstripList]
  | cons c cs ih =>
    simp only [rstripList]
    cases h : rstripList cs with
    | nil =>
      by_cases hc : c = '/' <;> simp [hc]
    | cons x xs =>
      rw [h] at ih
      simpa [List.getLast?_cons_cons] using ih

/-- `rstripList` removes exactly a run of trailing slashes: the original
list is the stripped list followed by some number of '/' characters. -/
theorem rstripList_restore (l : List Char) :
    ∃ k, l = rstripList l ++ List.replicate k '/' := by
  induction l with
  | nil => exact ⟨0, rfl⟩
  | cons c cs ih =>
    obtain ⟨k, hk⟩ := ih
    simp only [rstripList]
    cases h : rstripList cs with
    | nil =>
      rw [h] at hk
      by_cases hc : c = '/'
      · subst hc
        exact ⟨k + 1, by simp [List.replicate_succ]; exact hk⟩
      · simp only [if_neg hc]
        exact ⟨k, by simpa using hk⟩
    | cons x xs =>
      rw [h] at hk
      exact ⟨k, by simpa using hk⟩

/-- C6 amended: for a locator beginning with neither "." nor "/",
`canonical_url` returns the locator with its entire run of trailing
slashes removed (so the result never ends in "/", and the input is the
result plus some trailing slashes); path resolution applies only to
locators beginning with "." or "/". -/
theorem canonical_url_amended (fs : FS) (s : String)
    (h1 : s.toList.head? ≠ some '.') (h2 : s.toList.head? ≠ some '/') :
    canonical_url fs s = rstripSlash s ∧
    (∃ k, s.toList = (rstripSlash s).toList ++ List.replicate k '/') ∧
    (rstripSlash s).toList.getLast? ≠ some '/' := by
  refine ⟨?_, ?_, ?_⟩
  · have hcond : ¬ ((rstripSlash s).toList.head? = some '.' ∨
        (rstripSlash s).toList.head? = some '/') := by
      have e1 : (rstripSlash s).toList = rstripList s.toList := rfl
      rw [e1]
      rcases rstripList_head s.toList with hh | hh
      · rw [hh]
        simp
      · rw [hh]
        tauto
    show (if ((rstripSlash s).toList.head? = some '.' ∨
        (rstripSlash s).toList.head? = some '/') then fs.realpath (rstripSlash s)
      else rstripSlash s) = rstripSlash s
    rw [if_neg hcond]
  · simpa [rstripSlash] using rstripList_restore s.toList
  · simpa [rstripSlash] using rstripList_getLast s.toList

/-- Witness for C6's amended theorem at a concrete input. -/
theorem canonical_url_amended_witness :
    canonical_url fsEmpty "https://example.com/org/foo/" =
      rstripSlash "https://example.com/org/foo/" :=
  (canonical_url_amended fsEmpty "https://example.com/org/foo/" (by decide)
    (by decide)).1

/-- C8: `str` of a `Package` is its qualified name, equality of two
`Package` values holds exactly when their qualified-name strings are
equal, and the order is the lexicographic order of that same string —
for all instances, however constructed. -/
theorem package_str_eq_ord (p q : Package) :
    p.pyStr = p.qualified_name ∧
    (p.pyEq q = true ↔ p.qualified_name = q.qualified_name) ∧
    (p.pyLt q = true ↔ p.qualified_name < q.qualified_name) := by
  refine ⟨rfl, ?_, ?_⟩
  · simp [Package.pyEq, Package.pyStr]
  · simp [Package.pyLt, Package.pyStr]

/-- C9: equality, ordering and hashing of `InstalledPackage` depend only
on the package's string form; in particular two values whose packages
share a qualified name are equal and hash equal whatever their statuses. -/
theorem installed_package_eq_ord (a b : InstalledPackage) :
    (a.pyEq b = true ↔ a.package.pyStr = b.package.pyStr) ∧
    (a.pyLt b = true ↔ a.package.pyStr < b.package.pyStr) ∧
    (a.package.pyStr = b.package.pyStr →
      a.pyEq b = true ∧ a.pyHash = b.pyHash) := by
  refine ⟨by simp [InstalledPackage.pyEq], by simp [InstalledPackage.pyLt], ?_⟩
  intro h
  exact ⟨by simp [InstalledPackage.pyEq, h], by simp [InstalledPackage.pyHash, h]⟩

/-- Witness for C9: two installed packages with the same package but
statuses differing in every field are equal and hash equal. -/
theorem installed_package_eq_ord_witness :
    InstalledPackage.pyEq
        ⟨⟨"u", "s", "d", [], "n"⟩, ⟨true, true, true, some "version", some "1.0.0", some "aaa"⟩⟩
        ⟨⟨"u", "s", "d", [], "n"⟩, ⟨false, false, false, some "branch", some "main", some "bbb"⟩⟩
        = true ∧
    InstalledPackage.pyHash
        ⟨⟨"u", "s", "d", [], "n"⟩, ⟨true, true, true, some "version", some "1.0.0", some "aaa"⟩⟩ =
      InstalledPackage.pyHash
        ⟨⟨"u", "s", "d", [], "n"⟩, ⟨false, false, false, some "branch", some "main", some "bbb"⟩⟩ :=
  (installed_package_eq_ord
    ⟨⟨"u", "s", "d", [], "n"⟩, ⟨true, true, true, some "version", some "1.0.0", some "aaa"⟩⟩
    ⟨⟨"u", "s", "d", [], "n"⟩, ⟨false, false, false, some "branch", some "main", some "bbb"⟩⟩).2.2 rfl

/-- C10: `best_version` returns the last element of `versions` whenever
that list is non-empty, for every value of `default_branch`; on an empty
list it raises `AssertionError` when `default_branch` is `None` or empty
and returns the default branch otherwise. -/
theorem best_version_spec (p : PackageInfo) :
    (∀ h : p.versions ≠ [], ∀ db,
      PackageInfo.best_version { p with default_branch := db } =
        Except.ok (p.versions.getLast h)) ∧
    (p.versions = [] →
      (p.default_branch = none →
        p.best_version = Except.error PyExc.assertionError) ∧
      (p.default_branch = some "" →
        p.best_version = Except.error PyExc.assertionError) ∧
      (∀ b, p.default_branch = some b → b ≠ "" →
        p.best_version = Except.ok b)) := by
  constructor
  · intro h db
    simp [PackageInfo.best_version, h]
    rw [List.getLast?_eq_getLast p.versions h]
    rfl
  · intro h
    refine ⟨?_, ?_, ?_⟩
    · intro hdb
      simp [PackageInfo.best_version, h, hdb]
    · intro hdb
      simp [PackageInfo.best_version, h, hdb]
    · intro b hdb hb
      simp [PackageInfo.best_version, h, hdb, hb]

/-- Witness for C10 at concrete inputs. -/
theorem best_version_spec_witness :
    PackageInfo.best_version
        ⟨⟨"u", "s", "", [], "n"⟩, none, [], ["1.0.0", "2.0.0"], none, "", "", none, none⟩ =
      Except.ok "2.0.0" ∧
    PackageInfo.best_version
        ⟨⟨"u", "s", "", [], "n"⟩, none, [], [], none, "", "", none, some "main"⟩ =
      Except.ok "main" := by
  constructor
  · exact (best_version_spec
      ⟨⟨"u", "s", "", [], "n"⟩, none, [], ["1.0.0", "2.0.0"], none, "", "", none,
        some "ignored"⟩).1 (by decide) none
  · exact ((best_version_spec
      ⟨⟨"u", "s", "", [], "n"⟩, none, [], [], none, "", "", none,
        some "main"⟩).2 rfl).2.2 "main" rfl (by decide)

/-- The slice `l[::2]` has `ceil(len(l) / 2)` elements. -/
theorem everyOther_length : ∀ (l : List α), (everyOther l).length = (l.length + 1) / 2
  | [] => by simp [everyOther]
  | [_] => by simp [everyOther]
  | _ :: _ :: rest => by
    simp only [everyOther, List.length_cons, everyOther_length rest]
    omega

/-- C7: `dependencies` yields the empty map when the field is absent;
when present, an odd whitespace-token count yields the none-marker
(never a partial map), and an even count yields the map pairing each
even-indexed token with the token that follows it. -/
theorem dependencies_spec (md : List (String × String)) (field : String) :
    (lookupMeta md field = none → dependencies md field = some []) ∧
    (∀ v, lookupMeta md field = some v →
      ((pySplit v).length % 2 = 1 → dependencies md field = none) ∧
      ((pySplit v).length % 2 = 0 →
        dependencies md field =
          some ((everyOther (pySplit v)).zip (everyOther (pySplit v).tail)))) := by
  constructor
  · intro h
    simp [dependencies, h]
  · intro v hv
    have hk : (everyOther (pySplit v)).length = ((pySplit v).length + 1) / 2 :=
      everyOther_length _
    have hval : (everyOther (pySplit v).tail).length =
        ((pySplit v).tail.length + 1) / 2 := everyOther_length _
    have htail : (pySplit v).tail.length = (pySplit v).length - 1 :=
      List.length_tail _
    constructor
    · intro hodd
      have hne : (everyOther (pySplit v)).length ≠
          (everyOther (pySplit v).tail).length := by omega
      simp [dependencies, hv, hne]
    · intro heven
      have heq : (everyOther (pySplit v)).length =
          (everyOther (pySplit v).tail).length := by omega
      simp [dependencies, hv, heq]

/-- Witness for C7 at the spec's concrete inputs. -/
theorem dependencies_spec_witness :
    dependencies [("depends", "zeek >=4.0.0 foo *")] "depends" =
      some [("zeek", ">=4.0.0"), ("foo", "*")] ∧
    dependencies [("depends", "zeek")] "depends" = none := by
  constructor
  · have h := ((dependencies_spec [("depends", "zeek >=4.0.0 foo *")]
      "depends").2 "zeek >=4.0.0 foo *" rfl).2 (by decide)
    exact h.trans (by decide)
  · exact ((dependencies_spec [("depends", "zeek")] "depends").2 "zeek"
      rfl).1 (by decide)

/-- C5 counterexample: for the package with qualified name
"src/alice/foo", a path with more components whose trailing components
all match ("x/src/alice/foo", which is not a component suffix of the
qualified name, so the claim requires `false`) makes `matches_path`
raise `IndexError` instead of returning a boolean. -/
theorem matches_path_overlong_path_raises :
    Package.matches_path ⟨"git", "src", "alice", [], "foo"⟩ "x/src/alice/foo" =
      Except.error PyExc.indexError ∧
    (Except.error PyExc.indexError : Except PyExc Bool) ≠ Except.ok false :=
  ⟨rfl, by intro h; exact Except.noConfusion h⟩

/-- In-range evaluation of a negative Python index: for `i < n ≤ len l`,
`l[i - n]` is the element at offset `len l - n + i`. -/
theorem pyGetNeg_in_range (l : List String) (i n : Nat) (hi : i < n)
    (hn : n ≤ l.length) :
    pyGetNeg l ((i : Int) - (n : Int)) = l.get? (l.length - n + i) := by
  have hlt : ((i : Int) - (n : Int)) < 0 := by omega
  simp only [pyGetNeg, if_pos hlt]
  have hcond : 0 ≤ (i : Int) - (n : Int) + l.length ∧
      (i : Int) - (n : Int) + l.length < (l.length : Int) := by
    constructor <;> omega
  rw [if_pos hcond]
  congr 1
  omega

/-- The loop of `matches_path`, evaluated on any index/part list whose
indices are below `n ≤ len pkg`: it returns `ok` of whether every listed
part equals the correspondingly aligned component of `pkg`. -/
theorem suffixCheckAux_spec (pkg : List String) (n : Nat) (hn : n ≤ pkg.length) :
    ∀ L : List (Nat × String), (∀ x ∈ L, x.1 < n) →
      suffixCheckAux pkg n L =
        Except.ok (decide (∀ x ∈ L, pkg.get? (pkg.length - n + x.1) = some x.2))
  | [], _ => by simp [suffixCheckAux]
  | (i, part) :: rest, hL => by
    have hi : i < n := hL (i, part) (by simp)
    have hidx : pkg.length - n + i < pkg.length := by omega
    have hq : pkg.get? (pkg.length - n + i) = some (pkg.get ⟨pkg.length - n + i, hidx⟩) :=
      List.get?_eq_get hidx
    have hrest := suffixCheckAux_spec pkg n hn rest (fun x hx => hL x (by simp [hx]))
    simp only [suffixCheckAux, pyGetNeg_in_range pkg i n hi hn, hq]
    by_cases hpq : part = pkg.get ⟨pkg.length - n + i, hidx⟩
    · rw [if_neg (by simp [hpq]), hrest]
      congr 1
      rw [decide_eq_decide]
      simp only [List.forall_mem_cons]
      constructor
      · intro hr
        exact ⟨by rw [hq, hpq], hr⟩
      · intro hall
        exact hall.2
    · rw [if_pos hpq]
      congr 1
      symm
      apply decide_eq_false
      intro hall
      have h2 := hall (i, part) (by simp)
      rw [hq] at h2
      exact hpq (Option.some_inj.mp h2).symm

/-- Bridging the loop's componentwise condition over the reversed
enumeration of the path's components to list-suffix equality: when the
path has no more components than the qualified name, the loop condition
holds exactly when the path's components are the trailing components of
the qualified name. -/
theorem forall_enum_reverse_iff_drop (pp pkg : List String)
    (hn : pp.length ≤ pkg.length) :
    (∀ x ∈ pp.enum.reverse, pkg.get? (pkg.length - pp.length + x.1) = some x.2) ↔
      pp = pkg.drop (pkg.length - pp.length) := by
  constructor
  · intro h
    apply List.ext
    intro j
    rcases hj : pp.get? j with _ | a
    · have hlen : pp.length ≤ j := List.get?_eq_none.mp hj
      symm
      rw [List.get?_eq_none, List.length_drop]
      omega
    · have hmem : (j, a) ∈ pp.enum := List.mem_enum_iff_get?.mpr hj
      have hja := h (j, a) (List.mem_reverse.mpr hmem)
      rw [List.get?_drop]
      exact hja.symm
  · intro h x hx
    have hx1 : pp.get? x.1 = some x.2 :=
      List.mem_enum_iff_get?.mp (List.mem_reverse.mp hx)
    rw [h, List.get?_drop] at hx1
    exact hx1

/-- C5 amended: for a `Package` with a non-empty source and a path with
at most as many "/"-components as the qualified name, `matches_path`
returns exactly whether the path's components are a contiguous
right-aligned suffix of the qualified name's components (for longer
paths the loop can instead raise `IndexError`, see the counterexample);
for a `Package` with empty source it returns whether the path is a
single component equal to the name, or equal to the git URL. -/
theorem matches_path_spec (p : Package) (path : String) :
    (p.source ≠ "" →
      (pySplitChar '/' path).length ≤ (pySplitChar '/' p.qualified_name).length →
      p.matches_path path =
        Except.ok (decide
          (pySplitChar '/' path <:+ pySplitChar '/' p.qualified_name))) ∧
    (p.source = "" →
      p.matches_path path =
        Except.ok ((decide ((pySplitChar '/' path).length = 1 ∧
            (pySplitChar '/' path).getLastD "" = p.name)) ||
          decide (path = p.git_url))) := by
  constructor
  · intro hsrc hlen
    unfold Package.matches_path
    rw [if_pos hsrc]
    have henum : ∀ x ∈ (pySplitChar '/' path).enum.reverse,
        x.1 < (pySplitChar '/' path).length := by
      intro x hx
      have hg := List.mem_enum_iff_get?.mp (List.mem_reverse.mp hx)
      by_contra hge
      push_neg at hge
      rw [List.get?_eq_none.mpr hge] at hg
      exact Option.noConfusion hg
    rw [suffixCheckAux_spec _ _ hlen _ henum]
    congr 1
    rw [decide_eq_decide, forall_enum_reverse_iff_drop _ _ hlen,
      List.suffix_iff_eq_drop]
  · intro hsrc
    unfold Package.matches_path
    rw [if_neg (by simp [hsrc])]
    by_cases hc : (pySplitChar '/' path).length = 1 ∧
        (pySplitChar '/' path).getLastD "" = p.name
    · rw [if_pos hc, decide_eq_true hc]
      rfl
    · rw [if_neg hc, decide_eq_false hc]
      rfl

/-- Witness for C5's amended theorem at concrete inputs, one per branch. -/
theorem matches_path_spec_witness :
    Package.matches_path ⟨"git", "src", "alice", [], "foo"⟩ "alice/foo" =
      Except.ok true ∧
    Package.matches_path ⟨"https://e.com/foo", "", "", [], "foo"⟩ "foo" =
      Except.ok true := by
  constructor
  · have h := (matches_path_spec ⟨"git", "src", "alice", [], "foo"⟩
      "alice/foo").1 (by decide) (by decide)
    exact h.trans rfl
  · have h := (matches_path_spec ⟨"https://e.com/foo", "", "", [], "foo"⟩
      "foo").2 rfl
    exact h.trans rfl
